import Mathlib

/-!
Shallow embedding of the smooth-scrolling control engine of tpmiddle-rs:
the module `smooth` of `src/core/src/control.rs` (`State`, `FeedRate`,
`Decay`, the tick/feed algorithm) together with the unit types of
`src/src/units.rs` (`Wheel`, `Tick`, `Delta`, `Direction`).

The source's `f32` arithmetic is embedded as exact arithmetic over a linear
ordered field with a floor function (the theorems instantiate it with `ℝ`).
`f32::sqrt` is taken as a function parameter and instantiated with
`Real.sqrt` in every theorem.  Rust's `as i32` cast of the small float
quantities involved is truncation toward zero, `f32::div_euclid(1.0)` is the
floor and `f32::rem_euclid(1.0)` the fractional part.
-/

set_option linter.unusedSectionVars false
set_option linter.unusedVariables false

namespace Tpmiddle

variable {K : Type} [LinearOrderedField K] [FloorRing K]

/-- One wheel tick is 120 delta units (`units.rs`: `WHEEL_DELTA`). -/
def WHEEL_DELTA : ℤ := 120

/-- Wrapper for a wheel tick value (`units.rs`: `struct Tick<T>`). -/
structure Tick (α : Type) where
  raw : α
deriving DecidableEq

/-- Scalar multiplication on fractional ticks (`units.rs`: `impl Mul<f32> for Tick<f32>`). -/
instance : HMul (Tick K) K (Tick K) := ⟨fun t rhs => ⟨t.raw * rhs⟩⟩

/-- Output delta values; the source's `Delta(i32)` newtype is embedded as `ℤ`. -/
abbrev Delta := ℤ

/-- Scroll direction; the source's `Direction(i8)` newtype (holding a signum) is embedded as `ℤ`. -/
abbrev Direction := ℤ

/-- Direction of a tick (`units.rs`: `impl From<Tick<i8>> for Direction`, via `signum`). -/
def Direction.ofTick (t : Tick ℤ) : Direction := t.raw.sign

/-- Direction reinterpreted as a fractional tick (`units.rs`: `impl From<Direction> for Tick<f32>`). -/
def Tick.ofDirection (d : Direction) : Tick K := ⟨(d : K)⟩

/-- Axis-tagged value (`units.rs`: `enum Wheel<T>`). -/
inductive Wheel (α : Type) where
  | Vertical (val : α)
  | Horizontal (val : α)
deriving DecidableEq

namespace Wheel

variable {α β : Type}

/-- Replace the payload (`units.rs`: `Wheel::with_value`).  The source's
`Horizontal` arm returns `Wheel::Vertical(value)`; the embedding reproduces
that line as written. -/
def with_value : Wheel α → β → Wheel β
  | Vertical _, v => Vertical v
  | Horizontal _, v => Vertical v

/-- Extract the payload (`units.rs`: `Wheel::value`). -/
def value : Wheel α → α
  | Vertical x => x
  | Horizontal x => x

/-- Map the payload, keeping the axis (`units.rs`: the private `Wheel::into`). -/
def into (w : Wheel α) (map : α → β) : Wheel β :=
  match w with
  | Vertical x => Vertical (map x)
  | Horizontal x => Horizontal (map x)

/-- Axiswise direction of a tick event (`units.rs`: `Wheel::into_direction`). -/
def into_direction (w : Wheel (Tick ℤ)) : Wheel Direction :=
  w.into Direction.ofTick

/-- Direction as a fractional tick on its axis (`units.rs`: `Wheel::into_tick`). -/
def into_tick (w : Wheel Direction) : Wheel (Tick K) :=
  w.into Tick.ofDirection

end Wheel

/-- Truncation toward zero, the meaning of Rust's `as i32` on an in-range `f32`. -/
def truncI (x : K) : ℤ := if 0 ≤ x then ⌊x⌋ else ⌈x⌉

/-- Quantize a fractional tick into a whole delta plus the rounding remainder
(`units.rs`: `impl From<Tick<f32>> for (Delta, f32)`). -/
def Tick.into_delta_error (t : Tick K) : Delta × K :=
  let delta_f32 := t.raw * (WHEEL_DELTA : K)
  (truncI delta_f32, delta_f32 - (truncI delta_f32 : K))

/-- Empirically found min feed interval, 0.015 s (`control.rs`: `MIN_FEED_INTERVAL_SECS`). -/
def MIN_FEED_INTERVAL_SECS : K := 15 / 1000

/-- Feed intervals greater than this are separate wheel events, 0.3 s
(`control.rs`: `MAX_FEED_INTERVAL_SECS`). -/
def MAX_FEED_INTERVAL_SECS : K := 3 / 10

/-- Clock frequency of the wheel ticker (`control.rs`: `WHEEL_TICK_FREQ`). -/
def WHEEL_TICK_FREQ : ℕ := 120

/-- Clock period (`control.rs`: `WHEEL_TICK_INTERVAL_SECS`). -/
def WHEEL_TICK_INTERVAL_SECS : K := 1 / (WHEEL_TICK_FREQ : K)

/-- Time to fully drain the buffer into the reservoir, 0.05 s
(`control.rs`: `BUFFER_MAX_DRAIN_DURATION_SECS`). -/
def BUFFER_MAX_DRAIN_DURATION_SECS : K := 5 / 100

/-- Linear drain rate per clock tick (`control.rs`: `BUFFER_MIN_DRAIN_PER_TICK`). -/
def BUFFER_MIN_DRAIN_PER_TICK : K :=
  1 / BUFFER_MAX_DRAIN_DURATION_SECS / (WHEEL_TICK_FREQ : K)

/-- Moving-average estimator of feed interval and magnitude (`control.rs`: `struct FeedRate`). -/
structure FeedRate (K : Type) where
  interval : Option K
  value : Option K
  prev : K

namespace FeedRate

variable {K : Type} [LinearOrderedField K] [FloorRing K]

/-- Fresh estimator with no prior sample (`control.rs`: `FeedRate::new`). -/
def new (now : K) : FeedRate K := ⟨none, none, now⟩

/-- Blending coefficient of both moving averages (`control.rs`: `MOVING_AVG_COEFF`). -/
def MOVING_AVG_COEFF : K := 1 / 2

/-- Blend a new sample into both moving averages (`control.rs`: `FeedRate::feed`). -/
def feed (fr : FeedRate K) (now : K) (tick : Tick ℤ) : FeedRate K :=
  let diff := now - fr.prev
  let interval := match fr.interval with
    | some interval => some (interval * (1 - MOVING_AVG_COEFF) + diff * MOVING_AVG_COEFF)
    | none => some diff
  let tickv : K := ((|tick.raw| : ℤ) : K)
  let value := match fr.value with
    | some value => some (value * (1 - MOVING_AVG_COEFF) + tickv * MOVING_AVG_COEFF)
    | none => some tickv
  ⟨interval, value, now⟩

/-- Stored interval clamped into the feed window (`control.rs`: `FeedRate::interval`). -/
def interval' (fr : FeedRate K) : K :=
  max (min (fr.interval.getD MAX_FEED_INTERVAL_SECS) MAX_FEED_INTERVAL_SECS)
    MIN_FEED_INTERVAL_SECS

/-- Average pressure per second (`control.rs`: `FeedRate::moving_avg`). -/
def moving_avg (fr : FeedRate K) : K :=
  fr.value.getD 1 / fr.interval'

end FeedRate

/-- Reservoir decay mode (`control.rs`: `enum Decay`). -/
inductive Decay (K : Type) where
  | Quadratic (amount : K) (decreasing_rate : K)
  | AutomaticExponential

/-- Payload of the `State::Scrolling` variant (`control.rs`). -/
structure ScrollData (K : Type) where
  direction : Wheel Direction
  buffer : K
  decay : Decay K
  reservoir : K
  error : K
  feed_rate : FeedRate K

/-- Scroll state machine state (`control.rs`: `enum State`). -/
inductive State (K : Type) where
  | Scrolling (data : ScrollData K)
  | Nop

namespace State

variable {K : Type} [LinearOrderedField K] [FloorRing K]

/-- The `_ =>` arm of `State::feed` (`control.rs` lines 295-307): abandon any
prior session and seed a new one from the incoming tick. -/
def feedRestart (sqrt : K → K) (now : K) (tick : Wheel (Tick ℤ)) : Bool × State K :=
  let initial_nudge := sqrt (MIN_FEED_INTERVAL_SECS / MAX_FEED_INTERVAL_SECS)
  (true, Scrolling {
    direction := tick.into_direction
    buffer := ((|tick.value.raw| : ℤ) : K) * initial_nudge
    decay := Decay.AutomaticExponential
    reservoir := 0
    error := 0
    feed_rate := FeedRate.new now })

/-- Ingest one tick event (`control.rs`: `State::feed`); returns the source's
`bool` ("a new session started, restart the clock") with the successor state.
The parameter `sqrt` stands for `f32::sqrt`; every theorem instantiates it
with `Real.sqrt`. -/
def feed (sqrt : K → K) (s : State K) (now : K) (tick : Wheel (Tick ℤ)) : Bool × State K :=
  match s with
  | Scrolling d =>
    if tick.into_direction = d.direction then
      let feed_rate := d.feed_rate.feed now tick.value
      let nudge := sqrt (MIN_FEED_INTERVAL_SECS / feed_rate.interval')
      let value := ((|tick.value.raw| : ℤ) : K) * nudge
      (false, Scrolling { d with
        buffer := d.buffer + value
        decay := Decay.AutomaticExponential
        feed_rate := feed_rate })
    else feedRestart sqrt now tick
  | Nop => feedRestart sqrt now tick

/-- Amount moved from the buffer to the reservoir on one clock tick
(`control.rs` lines 321-329). -/
def drainAmount (buffer : K) : K :=
  if buffer > 1 then buffer * BUFFER_MIN_DRAIN_PER_TICK
  else min BUFFER_MIN_DRAIN_PER_TICK buffer

/-- Reservoir after the drain and the conditional cap (`control.rs` lines 330-336). -/
def reservoirAfterCap (d : ScrollData K) : K :=
  let drain := drainAmount d.buffer
  let reservoir := d.reservoir + drain
  if drain > 0 then min reservoir d.feed_rate.moving_avg else reservoir

/-- Decay-mode selection: snapshot a quadratic schedule when the buffer has
just emptied under automatic decay (`control.rs` lines 338-353). -/
def decaySelect (decay : Decay K) (buffer reservoir decay_rate feed_interval : K) : Decay K :=
  match decay with
  | Decay.AutomaticExponential =>
    if buffer = 0 then
      Decay.Quadratic (reservoir * decay_rate)
        (reservoir * decay_rate / (feed_interval * 2 * (WHEEL_TICK_FREQ : K)))
    else Decay.AutomaticExponential
  | q => q

/-- Spend for this tick and the decay state it leaves behind
(`control.rs` lines 355-366). -/
def spendStep (decay : Decay K) (reservoir decay_rate : K) : K × Decay K :=
  match decay with
  | Decay.Quadratic amount decreasing_rate =>
    (min amount reservoir, Decay.Quadratic (amount - min decreasing_rate amount) decreasing_rate)
  | Decay.AutomaticExponential => (reservoir * decay_rate, Decay.AutomaticExponential)

/-- Quantize the spend into an integer delta, carrying the rounding error
(`control.rs` lines 368-377). -/
def quantize (direction : Wheel Direction) (error amount : K) : Delta × K :=
  let ticks : Tick K := (direction.into_tick : Wheel (Tick K)).value * amount
  let pair := ticks.into_delta_error
  let error1 := error + pair.2
  (pair.1 + ⌊error1⌋, Int.fract error1)

/-- Result of one clock tick: the emitted wheel event, the reservoir amount
spent, and the successor state. -/
structure TickResult (K : Type) where
  output : Option (Wheel Delta)
  spend : K
  next : State K

/-- One clock tick (`control.rs`: `State::tick` lines 310-387), with the spend
amount exposed alongside the source function's `Option<Wheel<Delta>>` result. -/
def tickFull : State K → TickResult K
  | Nop => ⟨none, 0, Nop⟩
  | Scrolling d =>
    let drain := drainAmount d.buffer
    let buffer := d.buffer - drain
    let reservoir := reservoirAfterCap d
    let feed_interval := d.feed_rate.interval'
    let decay_rate := WHEEL_TICK_INTERVAL_SECS / feed_interval
    let decay := decaySelect d.decay buffer reservoir decay_rate feed_interval
    let spent := spendStep decay reservoir decay_rate
    let amount := spent.1
    let reservoir2 := reservoir - amount
    let quantized := quantize d.direction d.error amount
    let next :=
      if reservoir2 = 0 ∨ (amount = 0 ∧ quantized.2 < 1) then Nop
      else Scrolling { d with
        buffer := buffer
        decay := spent.2
        reservoir := reservoir2
        error := quantized.2 }
    ⟨some (d.direction.with_value quantized.1), amount, next⟩

/-- The source function `State::tick`: emitted event and successor state. -/
def tick (s : State K) : Option (Wheel Delta) × State K :=
  ((tickFull s).output, (tickFull s).next)

/-- Successor state of one clock tick. -/
def tickNext (s : State K) : State K := (tickFull s).next

end State

/-- Structural invariant on the decay mode: nonnegative schedule that stays
zero once its decrement is zero. -/
def DecayInv : Decay K → Prop
  | Decay.Quadratic amount decreasing_rate =>
      0 ≤ amount ∧ 0 ≤ decreasing_rate ∧ (decreasing_rate = 0 → amount = 0)
  | Decay.AutomaticExponential => True

/-- The magnitude moving average is positive whenever it has been seeded. -/
def FRInv (fr : FeedRate K) : Prop := ∀ v, fr.value = some v → 0 < v

/-- Invariant satisfied by every reachable state of the scroll machine. -/
def SInv : State K → Prop
  | State.Nop => True
  | State.Scrolling d =>
      0 ≤ d.buffer ∧ 0 ≤ d.reservoir ∧ 0 ≤ d.error ∧ d.error < 1 ∧
      DecayInv d.decay ∧ FRInv d.feed_rate ∧
      (∀ a r, d.decay = Decay.Quadratic a r → d.buffer = 0)

/-- States reachable from the idle machine by feeding nonzero-magnitude ticks
at arbitrary instants and by running clock ticks. -/
inductive Reachable : State ℝ → Prop
  | nop : Reachable State.Nop
  | feed_step (s : State ℝ) (now : ℝ) (t : Wheel (Tick ℤ)) :
      Reachable s → t.value.raw ≠ 0 → Reachable (State.feed Real.sqrt s now t).2
  | tick_step (s : State ℝ) : Reachable s → Reachable (State.tickNext s)

/-- Remaining length of a quadratic spend schedule, in clock ticks. -/
def qsN (a r : K) : ℕ := if 0 < r then ⌈a / r⌉.toNat else 0

/-- Decay-mode component of the idle bound: the length `interval * 2 * F` of
the quadratic schedule (pending for automatic decay, remaining for a
quadratic snapshot). -/
def dcomp : Decay K → FeedRate K → ℕ
  | Decay.AutomaticExponential, fr => ⌈fr.interval' * 2 * (WHEEL_TICK_FREQ : K)⌉.toNat + 1
  | Decay.Quadratic a r, _ => qsN a r

/-- Explicit bound on the number of clock ticks a state needs to reach idle:
one tick per sixth of a buffer unit, plus the decay-schedule length, plus
bookkeeping ticks. -/
def ticksToIdle : State K → ℕ
  | State.Nop => 0
  | State.Scrolling d => 1 + (⌈6 * d.buffer⌉.toNat) + dcomp d.decay d.feed_rate

/-- Integer delta carried by an emitted wheel event (zero when none). -/
def deltaOfOutput : Option (Wheel Delta) → ℤ
  | none => 0
  | some w => w.value

/-- Direction of a state as a scalar (zero when idle). -/
def dirValOf : State K → K
  | State.Nop => 0
  | State.Scrolling d => ((d.direction.value : ℤ) : K)

/-- Sum of the integer deltas emitted by the next `n` clock ticks. -/
def emitSum : ℕ → State K → ℤ
  | 0, _ => 0
  | Nat.succ n, s =>
      deltaOfOutput (State.tickFull s).output + emitSum n (State.tickFull s).next

/-- Exact real-valued counterpart of `emitSum`: direction times spend, scaled
into output units by `WHEEL_DELTA`, summed over the next `n` clock ticks. -/
def exactSum : ℕ → State K → K
  | 0, _ => 0
  | Nat.succ n, s =>
      dirValOf s * (State.tickFull s).spend * (WHEEL_DELTA : K) +
        exactSum n (State.tickFull s).next

/-- The rounding-error field of a state (zero when idle). -/
def errOf : State K → K
  | State.Nop => 0
  | State.Scrolling d => d.error

namespace Lemmas

variable {K : Type} [LinearOrderedField K] [FloorRing K]

lemma min_lt_max_interval : (MIN_FEED_INTERVAL_SECS : K) < MAX_FEED_INTERVAL_SECS := by
  norm_num [MIN_FEED_INTERVAL_SECS, MAX_FEED_INTERVAL_SECS]

lemma min_interval_pos : (0 : K) < MIN_FEED_INTERVAL_SECS := by
  norm_num [MIN_FEED_INTERVAL_SECS]

lemma interval'_lower (fr : FeedRate K) : MIN_FEED_INTERVAL_SECS ≤ fr.interval' :=
  le_max_right _ _

lemma interval'_upper (fr : FeedRate K) : fr.interval' ≤ MAX_FEED_INTERVAL_SECS :=
  max_le (min_le_right _ _) (le_of_lt min_lt_max_interval)

lemma interval'_pos (fr : FeedRate K) : 0 < fr.interval' :=
  lt_of_lt_of_le min_interval_pos (interval'_lower fr)

lemma decay_rate_pos (fr : FeedRate K) : 0 < WHEEL_TICK_INTERVAL_SECS / fr.interval' := by
  apply div_pos _ (interval'_pos fr)
  norm_num [WHEEL_TICK_INTERVAL_SECS, WHEEL_TICK_FREQ]

lemma decay_rate_lt_one (fr : FeedRate K) : WHEEL_TICK_INTERVAL_SECS / fr.interval' < 1 := by
  rw [div_lt_one (interval'_pos fr)]
  calc (WHEEL_TICK_INTERVAL_SECS : K) < MIN_FEED_INTERVAL_SECS := by
        norm_num [WHEEL_TICK_INTERVAL_SECS, WHEEL_TICK_FREQ, MIN_FEED_INTERVAL_SECS]
    _ ≤ fr.interval' := interval'_lower fr

lemma moving_avg_pos {fr : FeedRate K} (h : FRInv fr) : 0 < fr.moving_avg := by
  rcases hv : fr.value with _ | v
  · simp only [FeedRate.moving_avg, hv, Option.getD_none]
    exact div_pos one_pos (interval'_pos fr)
  · simp only [FeedRate.moving_avg, hv, Option.getD_some]
    exact div_pos (h v hv) (interval'_pos fr)

lemma bmdpt_eq : (BUFFER_MIN_DRAIN_PER_TICK : K) = 1 / 6 := by
  norm_num [BUFFER_MIN_DRAIN_PER_TICK, BUFFER_MAX_DRAIN_DURATION_SECS, WHEEL_TICK_FREQ]

lemma drainAmount_nonneg {b : K} (hb : 0 ≤ b) : 0 ≤ State.drainAmount b := by
  unfold State.drainAmount
  split
  · rename_i h
    rw [bmdpt_eq]
    nlinarith
  · exact le_min (by rw [bmdpt_eq]; norm_num) hb

lemma drainAmount_le {b : K} (hb : 0 ≤ b) : State.drainAmount b ≤ b := by
  unfold State.drainAmount
  split
  · rename_i h
    rw [bmdpt_eq]
    nlinarith
  · exact min_le_right _ _

lemma drainAmount_pos {b : K} (hb : 0 < b) : 0 < State.drainAmount b := by
  unfold State.drainAmount
  split
  · rename_i h
    rw [bmdpt_eq]
    nlinarith
  · exact lt_min (by rw [bmdpt_eq]; norm_num) hb

lemma drainAmount_zero : State.drainAmount (0 : K) = 0 := by
  unfold State.drainAmount
  rw [if_neg (by norm_num), bmdpt_eq]
  exact min_eq_right (by norm_num)

lemma reservoirAfterCap_nonneg {d : ScrollData K} (hb : 0 ≤ d.buffer)
    (hr : 0 ≤ d.reservoir) (hf : FRInv d.feed_rate) : 0 ≤ State.reservoirAfterCap d := by
  unfold State.reservoirAfterCap
  have hd := drainAmount_nonneg hb
  dsimp only
  split
  · exact le_min (by linarith) (le_of_lt (moving_avg_pos hf))
  · linarith

lemma reservoirAfterCap_pos {d : ScrollData K} (hb : 0 < d.buffer)
    (hr : 0 ≤ d.reservoir) (hf : FRInv d.feed_rate) : 0 < State.reservoirAfterCap d := by
  unfold State.reservoirAfterCap
  have hd := drainAmount_pos hb
  dsimp only
  rw [if_pos hd]
  exact lt_min (by linarith) (moving_avg_pos hf)

lemma reservoirAfterCap_buffer_zero {d : ScrollData K} (hb : d.buffer = 0) :
    State.reservoirAfterCap d = d.reservoir := by
  unfold State.reservoirAfterCap
  dsimp only
  rw [hb, drainAmount_zero]
  simp

lemma value_into {α β : Type} (w : Wheel α) (f : α → β) : (w.into f).value = f w.value := by
  cases w <;> rfl

lemma ticks_raw (dir : Wheel Direction) (amt : K) :
    ((dir.into_tick : Wheel (Tick K)).value * amt).raw = ((dir.value : ℤ) : K) * amt := by
  cases dir <;> rfl

/-- Shorthand for the exact (unquantized) delta of one tick: direction times
spend, scaled by `WHEEL_DELTA`. -/
def rawOf (dir : Wheel Direction) (amt : K) : K := ((dir.value : ℤ) : K) * amt * (WHEEL_DELTA : K)

lemma quantize_fst (dir : Wheel Direction) (err amt : K) :
    (State.quantize dir err amt).1 =
      truncI (rawOf dir amt) + ⌊err + (rawOf dir amt - (truncI (rawOf dir amt) : K))⌋ := by
  cases dir <;> rfl

lemma quantize_snd (dir : Wheel Direction) (err amt : K) :
    (State.quantize dir err amt).2 =
      Int.fract (err + (rawOf dir amt - (truncI (rawOf dir amt) : K))) := by
  cases dir <;> rfl

lemma quantize_snd_nonneg (dir : Wheel Direction) (err amt : K) :
    0 ≤ (State.quantize dir err amt).2 := by
  rw [quantize_snd]; exact Int.fract_nonneg _

lemma quantize_snd_lt_one (dir : Wheel Direction) (err amt : K) :
    (State.quantize dir err amt).2 < 1 := by
  rw [quantize_snd]; exact Int.fract_lt_one _

/-- One quantization step preserves the running identity: the exact delta
minus the emitted integer equals the change of the carried rounding error. -/
lemma quantize_key (dir : Wheel Direction) (err amt : K) :
    rawOf dir amt - ((State.quantize dir err amt).1 : K) =
      (State.quantize dir err amt).2 - err := by
  rw [quantize_fst, quantize_snd, Int.fract]
  push_cast
  ring

lemma truncI_nonneg {x : K} (hx : 0 ≤ x) : 0 ≤ truncI x := by
  unfold truncI
  rw [if_pos hx]
  exact Int.floor_nonneg.mpr hx

lemma truncI_frac_bounds (x : K) :
    0 ≤ x - (truncI x : K) ∧ x - (truncI x : K) < 1 ∨
      -1 < x - (truncI x : K) ∧ x - (truncI x : K) ≤ 0 := by
  unfold truncI
  split
  · left
    constructor
    · linarith [Int.floor_le x]
    · linarith [Int.lt_floor_add_one x]
  · right
    constructor
    · linarith [Int.ceil_lt_add_one x]
    · linarith [Int.le_ceil x]

lemma quantize_fst_nonneg {dir : Wheel Direction} (h1 : dir.value = 1) {err amt : K}
    (ha : 0 ≤ amt) (he : 0 ≤ err) : 0 ≤ (State.quantize dir err amt).1 := by
  rw [quantize_fst]
  have hraw : 0 ≤ rawOf dir amt := by
    unfold rawOf WHEEL_DELTA
    rw [h1]
    push_cast
    nlinarith
  have hfr : 0 ≤ rawOf dir amt - (truncI (rawOf dir amt) : K) := by
    unfold truncI
    rw [if_pos hraw]
    linarith [Int.floor_le (rawOf dir amt)]
  have hflr : (0 : ℤ) ≤ ⌊err + (rawOf dir amt - (truncI (rawOf dir amt) : K))⌋ :=
    Int.floor_nonneg.mpr (by linarith)
  exact add_nonneg (truncI_nonneg hraw) hflr

lemma quantize_fst_nonpos {dir : Wheel Direction} (h1 : dir.value = -1) {err amt : K}
    (ha : 0 ≤ amt) (he : 0 ≤ err) (he1 : err < 1) : (State.quantize dir err amt).1 ≤ 0 := by
  rw [quantize_fst]
  have hraw : rawOf dir amt ≤ 0 := by
    unfold rawOf WHEEL_DELTA
    rw [h1]
    push_cast
    nlinarith
  have htr : truncI (rawOf dir amt) ≤ 0 := by
    unfold truncI
    split
    · exact Int.floor_nonpos hraw
    · exact Int.ceil_le.mpr (by exact_mod_cast hraw)
  have hfr : rawOf dir amt - (truncI (rawOf dir amt) : K) ≤ 0 := by
    unfold truncI
    split
    · rename_i h
      have h0 : rawOf dir amt = 0 := le_antisymm hraw h
      rw [h0]
      simp
    · linarith [Int.le_ceil (rawOf dir amt)]
  have hflr : ⌊err + (rawOf dir amt - (truncI (rawOf dir amt) : K))⌋ ≤ 0 := by
    have hone := Int.floor_lt.mpr
      (show err + (rawOf dir amt - (truncI (rawOf dir amt) : K)) < ((1 : ℤ) : K) by
        push_cast
        linarith)
    omega
  exact add_nonpos htr hflr

/-- Decay mode after the selection stage of one tick. -/
def decay1 (d : ScrollData K) : Decay K :=
  State.decaySelect d.decay (d.buffer - State.drainAmount d.buffer) (State.reservoirAfterCap d)
    (WHEEL_TICK_INTERVAL_SECS / d.feed_rate.interval') d.feed_rate.interval'

/-- Reservoir amount spent by one tick. -/
def spendOf (d : ScrollData K) : K :=
  (State.spendStep (decay1 d) (State.reservoirAfterCap d)
    (WHEEL_TICK_INTERVAL_SECS / d.feed_rate.interval')).1

/-- Decay mode left behind by one tick. -/
def decay2Of (d : ScrollData K) : Decay K :=
  (State.spendStep (decay1 d) (State.reservoirAfterCap d)
    (WHEEL_TICK_INTERVAL_SECS / d.feed_rate.interval')).2

/-- Reservoir left behind by one tick. -/
def reservoir2Of (d : ScrollData K) : K := State.reservoirAfterCap d - spendOf d

/-- Rounding error left behind by one tick. -/
def error2Of (d : ScrollData K) : K := (State.quantize d.direction d.error (spendOf d)).2

/-- Integer delta emitted by one tick. -/
def deltaOf (d : ScrollData K) : Delta := (State.quantize d.direction d.error (spendOf d)).1

lemma tickFull_scrolling (d : ScrollData K) :
    State.tickFull (State.Scrolling d) =
      ⟨some (d.direction.with_value (deltaOf d)), spendOf d,
        if reservoir2Of d = 0 ∨ (spendOf d = 0 ∧ error2Of d < 1) then State.Nop
        else State.Scrolling { d with
          buffer := d.buffer - State.drainAmount d.buffer
          decay := decay2Of d
          reservoir := reservoir2Of d
          error := error2Of d }⟩ := rfl

lemma denom_pos (fr : FeedRate K) : 0 < fr.interval' * 2 * (WHEEL_TICK_FREQ : K) :=
  mul_pos (mul_pos (interval'_pos fr) two_pos) (by norm_num [WHEEL_TICK_FREQ])

lemma decayInv_decay1 {d : ScrollData K} (hdec : DecayInv d.decay)
    (hr2 : 0 ≤ State.reservoirAfterCap d) : DecayInv (decay1 d) := by
  unfold decay1
  cases hd : d.decay with
  | Quadratic a r =>
    rw [hd] at hdec
    exact hdec
  | AutomaticExponential =>
    unfold State.decaySelect
    dsimp only
    split
    · have hamt : 0 ≤ State.reservoirAfterCap d *
          (WHEEL_TICK_INTERVAL_SECS / d.feed_rate.interval') :=
        mul_nonneg hr2 (le_of_lt (decay_rate_pos d.feed_rate))
      refine ⟨hamt, div_nonneg hamt (le_of_lt (denom_pos d.feed_rate)), ?_⟩
      intro h0
      rcases div_eq_zero_iff.mp h0 with h | h
      · exact h
      · exact absurd h (ne_of_gt (denom_pos d.feed_rate))
    · trivial

lemma decay1_buffer_zero {d : ScrollData K}
    (hq : ∀ a r, d.decay = Decay.Quadratic a r → d.buffer = 0) :
    ∀ a r, decay1 d = Decay.Quadratic a r → d.buffer - State.drainAmount d.buffer = 0 := by
  intro a r h
  unfold decay1 at h
  cases hd : d.decay with
  | Quadratic a' r' =>
    have hb := hq a' r' hd
    rw [hb, drainAmount_zero]
    ring
  | AutomaticExponential =>
    rw [hd] at h
    unfold State.decaySelect at h
    dsimp only at h
    split at h
    · assumption
    · cases h

lemma spendStep_fst_nonneg {dec : Decay K} {r2 drr : K} (hdec : DecayInv dec)
    (hr2 : 0 ≤ r2) (hdrr : 0 ≤ drr) : 0 ≤ (State.spendStep dec r2 drr).1 := by
  cases dec with
  | Quadratic a r => exact le_min hdec.1 hr2
  | AutomaticExponential => exact mul_nonneg hr2 hdrr

lemma spendStep_fst_le {dec : Decay K} {r2 drr : K} (hr2 : 0 ≤ r2) (hdrr1 : drr ≤ 1) :
    (State.spendStep dec r2 drr).1 ≤ r2 := by
  cases dec with
  | Quadratic a r => exact min_le_right _ _
  | AutomaticExponential => exact mul_le_of_le_one_right hr2 hdrr1

lemma decayInv_spendStep {dec : Decay K} {r2 drr : K} (hdec : DecayInv dec) :
    DecayInv (State.spendStep dec r2 drr).2 := by
  cases dec with
  | Quadratic a r =>
    obtain ⟨ha, hr, h0⟩ := hdec
    refine ⟨?_, hr, ?_⟩
    · have := min_le_right r a
      show 0 ≤ a - min r a
      linarith
    · intro hr0
      have ha0 := h0 hr0
      show a - min r a = 0
      rw [ha0, hr0]
      simp
  | AutomaticExponential => trivial

lemma spendOf_nonneg {d : ScrollData K} (hdec1 : DecayInv (decay1 d))
    (hr2 : 0 ≤ State.reservoirAfterCap d) : 0 ≤ spendOf d :=
  spendStep_fst_nonneg hdec1 hr2 (le_of_lt (decay_rate_pos d.feed_rate))

lemma spendOf_le {d : ScrollData K} (hr2 : 0 ≤ State.reservoirAfterCap d) :
    spendOf d ≤ State.reservoirAfterCap d :=
  spendStep_fst_le hr2 (le_of_lt (decay_rate_lt_one d.feed_rate))

/-- One clock tick preserves the machine invariant. -/
lemma sinv_tickNext {s : State K} (h : SInv s) : SInv (State.tickNext s) := by
  cases s with
  | Nop => exact trivial
  | Scrolling d =>
    obtain ⟨hb, hr, he0, he1, hdec, hfr, hq⟩ := h
    have hr2 : 0 ≤ State.reservoirAfterCap d := reservoirAfterCap_nonneg hb hr hfr
    have hdec1 : DecayInv (decay1 d) := decayInv_decay1 hdec hr2
    unfold State.tickNext
    rw [tickFull_scrolling]
    dsimp only
    split
    · exact trivial
    · refine ⟨?_, ?_, ?_, ?_, ?_, hfr, ?_⟩
      · have := drainAmount_le hb
        show 0 ≤ d.buffer - State.drainAmount d.buffer
        linarith
      · have := spendOf_le hr2
        show 0 ≤ reservoir2Of d
        unfold reservoir2Of
        linarith
      · exact quantize_snd_nonneg _ _ _
      · exact quantize_snd_lt_one _ _ _
      · exact decayInv_spendStep hdec1
      · intro a r hq2
        show d.buffer - State.drainAmount d.buffer = 0
        cases hdq : decay1 d with
        | Quadratic a0 r0 => exact decay1_buffer_zero hq a0 r0 hdq
        | AutomaticExponential =>
          unfold decay2Of at hq2
          rw [hdq] at hq2
          cases hq2

lemma abs_cast_nonneg (z : ℤ) : (0 : K) ≤ ((|z| : ℤ) : K) := by
  exact_mod_cast abs_nonneg z

lemma frinv_feed {fr : FeedRate K} (hfr : FRInv fr) {t : Tick ℤ} (ht : t.raw ≠ 0) (now : K) :
    FRInv (fr.feed now t) := by
  intro v hv
  unfold FeedRate.feed at hv
  dsimp only at hv
  have habs : (0 : K) < ((|t.raw| : ℤ) : K) := by
    have : (0 : ℤ) < |t.raw| := abs_pos.mpr ht
    exact_mod_cast this
  cases hval : fr.value with
  | none =>
    rw [hval] at hv
    simp only [Option.some.injEq] at hv
    rw [← hv]
    exact habs
  | some w =>
    rw [hval] at hv
    simp only [Option.some.injEq] at hv
    have hw := hfr w hval
    rw [← hv]
    unfold FeedRate.MOVING_AVG_COEFF
    nlinarith

lemma sinv_feedRestart (sqrtF : K → K) (hs : ∀ x, 0 ≤ sqrtF x) (now : K)
    (t : Wheel (Tick ℤ)) : SInv (State.feedRestart sqrtF now t).2 := by
  refine ⟨?_, le_refl 0, le_refl 0, one_pos, trivial, ?_, ?_⟩
  · exact mul_nonneg (abs_cast_nonneg t.value.raw) (hs _)
  · intro v hv
    cases hv
  · intro a r hh
    cases hh

/-- Feeding a nonzero-magnitude tick preserves the machine invariant. -/
lemma sinv_feed (sqrtF : K → K) (hs : ∀ x, 0 ≤ sqrtF x) {s : State K} (now : K)
    {t : Wheel (Tick ℤ)} (h : SInv s) (ht : t.value.raw ≠ 0) :
    SInv (State.feed sqrtF s now t).2 := by
  cases s with
  | Nop => exact sinv_feedRestart sqrtF hs now t
  | Scrolling d =>
    obtain ⟨hb, hr, he0, he1, hdec, hfr, hq⟩ := h
    unfold State.feed
    dsimp only
    split
    · refine ⟨?_, hr, he0, he1, trivial, frinv_feed hfr ht now, ?_⟩
      · exact add_nonneg hb (mul_nonneg (abs_cast_nonneg t.value.raw) (hs _))
      · intro a r hh
        cases hh
    · exact sinv_feedRestart sqrtF hs now t

/-- Every reachable state satisfies the machine invariant. -/
lemma reachable_sinv {s : State ℝ} (h : Reachable s) : SInv s := by
  induction h with
  | nop => exact trivial
  | feed_step s now t hs ht ih => exact sinv_feed Real.sqrt Real.sqrt_nonneg now ih ht
  | tick_step s hs ih => exact sinv_tickNext ih

lemma decay1_snapshot {d : ScrollData K} (hauto : d.decay = Decay.AutomaticExponential)
    (hb : d.buffer - State.drainAmount d.buffer = 0) :
    decay1 d = Decay.Quadratic
      (State.reservoirAfterCap d * (WHEEL_TICK_INTERVAL_SECS / d.feed_rate.interval'))
      (State.reservoirAfterCap d * (WHEEL_TICK_INTERVAL_SECS / d.feed_rate.interval')
        / (d.feed_rate.interval' * 2 * (WHEEL_TICK_FREQ : K))) := by
  unfold decay1
  rw [hauto]
  unfold State.decaySelect
  dsimp only
  rw [if_pos hb]

/-- On a session with positive buffer satisfying the invariant, one tick
spends a positive amount and leaves a positive reservoir. -/
lemma tick_pos_of_buffer_pos {d : ScrollData K} (h : SInv (State.Scrolling d))
    (hb : 0 < d.buffer) : 0 < spendOf d ∧ 0 < reservoir2Of d := by
  obtain ⟨hb0, hr, he0, he1, hdec, hfr, hq⟩ := h
  have hauto : d.decay = Decay.AutomaticExponential := by
    cases hdec2 : d.decay with
    | Quadratic a r =>
      have h0 := hq a r hdec2
      rw [h0] at hb
      exact absurd hb (lt_irrefl 0)
    | AutomaticExponential => rfl
  have hr2 : 0 < State.reservoirAfterCap d := reservoirAfterCap_pos hb hr hfr
  have hdrrp := decay_rate_pos d.feed_rate
  have hdrrl := decay_rate_lt_one d.feed_rate
  have hkey : spendOf d =
      min (State.reservoirAfterCap d * (WHEEL_TICK_INTERVAL_SECS / d.feed_rate.interval'))
        (State.reservoirAfterCap d) ∨
      spendOf d = State.reservoirAfterCap d * (WHEEL_TICK_INTERVAL_SECS / d.feed_rate.interval') := by
    unfold spendOf decay1
    rw [hauto]
    unfold State.decaySelect
    dsimp only
    split
    · left
      rfl
    · right
      rfl
  have hmin : min (State.reservoirAfterCap d * (WHEEL_TICK_INTERVAL_SECS / d.feed_rate.interval'))
      (State.reservoirAfterCap d) ≤
      State.reservoirAfterCap d * (WHEEL_TICK_INTERVAL_SECS / d.feed_rate.interval') :=
    min_le_left _ _
  rcases hkey with hk | hk
  · constructor
    · rw [hk]
      exact lt_min (mul_pos hr2 hdrrp) hr2
    · unfold reservoir2Of
      rw [hk]
      nlinarith
  · constructor
    · rw [hk]
      exact mul_pos hr2 hdrrp
    · unfold reservoir2Of
      rw [hk]
      nlinarith

lemma interval'_new : (FeedRate.new (0 : ℝ)).interval' = 3 / 10 := by
  unfold FeedRate.new FeedRate.interval'
  norm_num [MIN_FEED_INTERVAL_SECS, MAX_FEED_INTERVAL_SECS]

lemma moving_avg_new : (FeedRate.new (0 : ℝ)).moving_avg = 10 / 3 := by
  unfold FeedRate.moving_avg
  rw [interval'_new]
  norm_num [FeedRate.new]

lemma drain_one : State.drainAmount (1 : ℝ) = 1 / 6 := by
  unfold State.drainAmount
  rw [if_neg (lt_irrefl 1), bmdpt_eq]
  norm_num

/-- Concrete session used to evaluate a full tick on rational data. -/
def sampleData : ScrollData ℝ :=
  ⟨Wheel.Vertical 1, 1, Decay.AutomaticExponential, 0, 0, FeedRate.new 0⟩

lemma sample_r2 : State.reservoirAfterCap sampleData = 1 / 6 := by
  unfold State.reservoirAfterCap sampleData
  dsimp only
  rw [drain_one, if_pos (by norm_num : (1 : ℝ) / 6 > 0), moving_avg_new]
  norm_num

lemma sample_decay1 : decay1 sampleData = Decay.AutomaticExponential := by
  unfold decay1 sampleData
  dsimp only
  unfold State.decaySelect
  rw [drain_one]
  dsimp only
  rw [if_neg (by norm_num : ¬((1 : ℝ) - 1 / 6 = 0))]

lemma sample_spend : spendOf sampleData = 1 / 216 := by
  unfold spendOf
  rw [sample_decay1, sample_r2]
  show (1 : ℝ) / 6 * (WHEEL_TICK_INTERVAL_SECS / sampleData.feed_rate.interval') = 1 / 216
  have h : sampleData.feed_rate = FeedRate.new 0 := rfl
  rw [h, interval'_new]
  norm_num [WHEEL_TICK_INTERVAL_SECS, WHEEL_TICK_FREQ]

lemma sample_res2 : reservoir2Of sampleData = 35 / 216 := by
  unfold reservoir2Of
  rw [sample_r2, sample_spend]
  norm_num

lemma sample_raw : rawOf (Wheel.Vertical (1 : ℤ)) ((1 : ℝ) / 216) = 5 / 9 := by
  unfold rawOf WHEEL_DELTA Wheel.value
  norm_num

lemma trunc_five_ninths : truncI ((5 : ℝ) / 9) = 0 := by
  unfold truncI
  rw [if_pos (by norm_num)]
  norm_num

lemma sample_err2 : error2Of sampleData = 5 / 9 := by
  unfold error2Of
  rw [sample_spend]
  show (State.quantize (Wheel.Vertical 1) 0 ((1 : ℝ) / 216)).2 = 5 / 9
  rw [quantize_snd, sample_raw, trunc_five_ninths]
  norm_num [Int.fract]

lemma sample_delta : deltaOf sampleData = 0 := by
  unfold deltaOf
  rw [sample_spend]
  show (State.quantize (Wheel.Vertical 1) 0 ((1 : ℝ) / 216)).1 = 0
  rw [quantize_fst, sample_raw, trunc_five_ninths]
  norm_num

lemma sample_decay2 : decay2Of sampleData = Decay.AutomaticExponential := by
  unfold decay2Of
  rw [sample_decay1]
  rfl

/-- Full evaluation of one tick on the sample session. -/
lemma sample_tick :
    State.tickFull (State.Scrolling sampleData) =
      ⟨some (Wheel.Vertical 0), 1 / 216,
       State.Scrolling ⟨Wheel.Vertical 1, 5 / 6, Decay.AutomaticExponential, 35 / 216, 5 / 9,
         FeedRate.new 0⟩⟩ := by
  rw [tickFull_scrolling]
  rw [if_neg (by rw [sample_res2, sample_spend, sample_err2]; norm_num)]
  rw [sample_spend, sample_delta, sample_decay2, sample_res2, sample_err2]
  show (⟨some ((Wheel.Vertical 1).with_value 0), 1 / 216, _⟩ : State.TickResult ℝ) = _
  unfold Wheel.with_value
  refine congrArg _ ?_
  refine congrArg _ ?_
  show ScrollData.mk (Wheel.Vertical 1) ((1 : ℝ) - State.drainAmount 1)
      Decay.AutomaticExponential (35 / 216) (5 / 9) (FeedRate.new 0) = _
  rw [drain_one]
  norm_num

lemma min_div_max : MIN_FEED_INTERVAL_SECS / MAX_FEED_INTERVAL_SECS = (1 / 20 : ℝ) := by
  norm_num [MIN_FEED_INTERVAL_SECS, MAX_FEED_INTERVAL_SECS]

lemma sqrt_twentieth_le_one : Real.sqrt (1 / 20) ≤ 1 := Real.sqrt_le_one.mpr (by norm_num)

lemma sixth_lt_sqrt_twentieth : (1 / 6 : ℝ) < Real.sqrt (1 / 20) := by
  rw [show (1 / 6 : ℝ) = Real.sqrt ((1 / 6) ^ 2) by rw [Real.sqrt_sq (by norm_num)]]
  exact Real.sqrt_lt_sqrt (by positivity) (by norm_num)

lemma drain_sqrt : State.drainAmount (Real.sqrt (1 / 20)) = 1 / 6 := by
  unfold State.drainAmount
  rw [if_neg (not_lt.mpr sqrt_twentieth_le_one), bmdpt_eq]
  exact min_eq_left (le_of_lt sixth_lt_sqrt_twentieth)

/-- The session created by the first feed of a wheel tick. -/
noncomputable def fedData (t : Wheel (Tick ℤ)) : ScrollData ℝ :=
  ⟨t.into_direction, ((|t.value.raw| : ℤ) : ℝ) *
      Real.sqrt (MIN_FEED_INTERVAL_SECS / MAX_FEED_INTERVAL_SECS),
    Decay.AutomaticExponential, 0, 0, FeedRate.new 0⟩

lemma feed_nop (t : Wheel (Tick ℤ)) :
    (State.feed Real.sqrt State.Nop 0 t).2 = State.Scrolling (fedData t) := rfl

lemma fed_buffer {t : Wheel (Tick ℤ)} (h1 : t.value.raw = 1) :
    (fedData t).buffer = Real.sqrt (1 / 20) := by
  show ((|t.value.raw| : ℤ) : ℝ) * Real.sqrt (MIN_FEED_INTERVAL_SECS / MAX_FEED_INTERVAL_SECS) =
    Real.sqrt (1 / 20)
  rw [h1, min_div_max]
  norm_num

lemma fed_r2 {t : Wheel (Tick ℤ)} (h1 : t.value.raw = 1) :
    State.reservoirAfterCap (fedData t) = 1 / 6 := by
  unfold State.reservoirAfterCap
  dsimp only
  rw [fed_buffer h1, drain_sqrt]
  have hres : (fedData t).reservoir = 0 := rfl
  have hfr : (fedData t).feed_rate = FeedRate.new 0 := rfl
  rw [hres, hfr, moving_avg_new, if_pos (by norm_num : (1 : ℝ) / 6 > 0)]
  norm_num

lemma fed_decay1 {t : Wheel (Tick ℤ)} (h1 : t.value.raw = 1) :
    decay1 (fedData t) = Decay.AutomaticExponential := by
  unfold decay1
  have hdec : (fedData t).decay = Decay.AutomaticExponential := rfl
  rw [hdec]
  unfold State.decaySelect
  dsimp only
  rw [fed_buffer h1, drain_sqrt]
  rw [if_neg (sub_ne_zero.mpr sixth_lt_sqrt_twentieth.ne')]

lemma fed_spend {t : Wheel (Tick ℤ)} (h1 : t.value.raw = 1) :
    spendOf (fedData t) = 1 / 216 := by
  unfold spendOf
  rw [fed_decay1 h1, fed_r2 h1]
  show (1 : ℝ) / 6 * (WHEEL_TICK_INTERVAL_SECS / (fedData t).feed_rate.interval') = 1 / 216
  have hfr : (fedData t).feed_rate = FeedRate.new 0 := rfl
  rw [hfr, interval'_new]
  norm_num [WHEEL_TICK_INTERVAL_SECS, WHEEL_TICK_FREQ]

lemma fed_dir_val {t : Wheel (Tick ℤ)} (h1 : t.value.raw = 1) :
    (t.into_direction).value = 1 := by
  unfold Wheel.into_direction
  rw [value_into]
  unfold Direction.ofTick
  rw [h1]
  rfl

lemma fed_delta {t : Wheel (Tick ℤ)} (h1 : t.value.raw = 1) :
    deltaOf (fedData t) = 0 := by
  unfold deltaOf
  rw [fed_spend h1]
  have hdir : (fedData t).direction = t.into_direction := rfl
  have herr : (fedData t).error = 0 := rfl
  rw [hdir, herr, quantize_fst]
  have hraw : rawOf t.into_direction ((1 : ℝ) / 216) = 5 / 9 := by
    unfold rawOf
    rw [fed_dir_val h1]
    norm_num [WHEEL_DELTA]
  rw [hraw, trunc_five_ninths]
  norm_num

/-- The first tick after a fresh single-detent feed emits the delta 0 through
`Wheel::with_value` applied to the session's direction. -/
lemma tick_fed_output {t : Wheel (Tick ℤ)} (h1 : t.value.raw = 1) :
    (State.tickFull (State.feed Real.sqrt State.Nop 0 t).2).output =
      some (t.into_direction.with_value 0) := by
  rw [feed_nop, tickFull_scrolling]
  show some ((fedData t).direction.with_value (deltaOf (fedData t))) = _
  rw [fed_delta h1]
  rfl

lemma ceil_buffer_mono {b : K} (hb : 0 ≤ b) :
    (⌈6 * (b - State.drainAmount b)⌉.toNat) ≤ ⌈6 * b⌉.toNat := by
  have h1 : 6 * (b - State.drainAmount b) ≤ 6 * b := by
    have := drainAmount_nonneg hb
    nlinarith
  have h2 := Int.ceil_le_ceil h1
  omega

lemma ceil_buffer_strict {b : K} (hb : 0 < b) :
    (⌈6 * (b - State.drainAmount b)⌉.toNat) < ⌈6 * b⌉.toNat := by
  have hpos : (0 : ℤ) < ⌈6 * b⌉ := Int.ceil_pos.mpr (by positivity)
  have hkey : ⌈6 * (b - State.drainAmount b)⌉ ≤ ⌈6 * b⌉ - 1 := by
    have hle : 6 * (b - State.drainAmount b) ≤ 6 * b - 1 ∨ b - State.drainAmount b = 0 := by
      unfold State.drainAmount
      split
      · rename_i h1
        left
        rw [bmdpt_eq]
        nlinarith
      · rename_i h1
        rw [bmdpt_eq]
        rcases le_total (1 / 6 : K) b with hc | hc
        · left
          rw [min_eq_left hc]
          nlinarith
        · right
          rw [min_eq_right hc]
          ring
    rcases hle with hle | hzero
    · calc ⌈6 * (b - State.drainAmount b)⌉ ≤ ⌈6 * b - 1⌉ := Int.ceil_le_ceil hle
        _ = ⌈6 * b + ((-1 : ℤ) : K)⌉ := by rw [show (6 * b - 1 : K) = 6 * b + ((-1 : ℤ) : K) by push_cast; ring]
        _ = ⌈6 * b⌉ - 1 := by rw [Int.ceil_add_int]; ring
    · rw [hzero]
      have h0 : ⌈(6 : K) * 0⌉ = 0 := by norm_num
      omega
  omega

lemma qsN_succ_le {a r : K} (ha : 0 < a) (hr : 0 < r) :
    qsN (a - min r a) r + 1 ≤ qsN a r := by
  unfold qsN
  rw [if_pos hr, if_pos hr]
  have hqa : (0 : ℤ) < ⌈a / r⌉ := Int.ceil_pos.mpr (div_pos ha hr)
  have hr0 : r ≠ 0 := ne_of_gt hr
  rcases le_total r a with hc | hc
  · rw [min_eq_left hc]
    have heq : (a - r) / r = a / r + ((-1 : ℤ) : K) := by
      push_cast
      field_simp
      ring
    rw [heq, Int.ceil_add_int]
    omega
  · rw [min_eq_right hc]
    rw [sub_self a]
    have h0 : ⌈(0 : K) / r⌉ = 0 := by rw [zero_div, Int.ceil_zero]
    rw [h0]
    omega

lemma snapshot_ratio {a c : K} (ha : a ≠ 0) (hc : c ≠ 0) : a / (a / c) = c := by
  field_simp

lemma error2Of_lt_one (d : ScrollData K) : error2Of d < 1 := by
  unfold error2Of
  exact quantize_snd_lt_one _ _ _

lemma error2Of_nonneg (d : ScrollData K) : 0 ≤ error2Of d := by
  unfold error2Of
  exact quantize_snd_nonneg _ _ _

/-- The idle bound strictly decreases across every clock tick taken from a
scrolling state that satisfies the invariant. -/
lemma measure_decreases {d : ScrollData K} (h : SInv (State.Scrolling d)) :
    ticksToIdle (State.tickNext (State.Scrolling d)) < ticksToIdle (State.Scrolling d) := by
  obtain ⟨hb0, hres0, he0, he1, hdec, hfr, hq⟩ := h
  have hr2 : 0 ≤ State.reservoirAfterCap d :=
    reservoirAfterCap_nonneg hb0 hres0 hfr
  have hdec1 : DecayInv (decay1 d) := decayInv_decay1 hdec hr2
  unfold State.tickNext
  rw [tickFull_scrolling]
  dsimp only
  split
  · show ticksToIdle State.Nop < ticksToIdle (State.Scrolling d)
    rw [show ticksToIdle (State.Nop : State K) = 0 from rfl,
      show ticksToIdle (State.Scrolling d) =
        1 + (⌈6 * d.buffer⌉.toNat) + dcomp d.decay d.feed_rate from rfl]
    omega
  · rename_i hcond
    push_neg at hcond
    have hsp_ne : spendOf d ≠ 0 := by
      intro h0
      have h1 := hcond.2 h0
      have h2 := error2Of_lt_one d
      linarith
    show ticksToIdle (State.Scrolling _) < ticksToIdle (State.Scrolling d)
    unfold ticksToIdle
    dsimp only
    have hF1 := ceil_buffer_mono hb0
    cases hdq : decay1 d with
    | AutomaticExponential =>
      have hd_auto : d.decay = Decay.AutomaticExponential ∧
          d.buffer - State.drainAmount d.buffer ≠ 0 := by
        cases hdd : d.decay with
        | Quadratic a r =>
          unfold decay1 at hdq
          rw [hdd] at hdq
          unfold State.decaySelect at hdq
          simp at hdq
        | AutomaticExponential =>
          unfold decay1 at hdq
          rw [hdd] at hdq
          unfold State.decaySelect at hdq
          dsimp only at hdq
          split at hdq
          · simp at hdq
          · rename_i hnz
            exact ⟨rfl, hnz⟩
      have hbpos : 0 < d.buffer := by
        rcases eq_or_lt_of_le hb0 with h0 | h0
        · exfalso
          apply hd_auto.2
          rw [← h0, drainAmount_zero]
          ring
        · exact h0
      have hdecay2 : decay2Of d = Decay.AutomaticExponential := by
        unfold decay2Of
        rw [hdq]
        rfl
      rw [hdecay2, hd_auto.1]
      have hF1s := ceil_buffer_strict hbpos
      omega
    | Quadratic a r =>
      have hsp_eq : spendOf d = min a (State.reservoirAfterCap d) := by
        unfold spendOf
        rw [hdq]
        rfl
      rw [hdq] at hdec1
      obtain ⟨ha0, hrr0, himp⟩ := hdec1
      have ha_pos : 0 < a := by
        rcases eq_or_lt_of_le ha0 with h0 | h0
        · exfalso
          apply hsp_ne
          rw [hsp_eq, ← h0]
          exact min_eq_left hr2
        · exact h0
      have hr_pos : 0 < r := by
        rcases eq_or_lt_of_le hrr0 with h0 | h0
        · exact absurd (himp h0.symm) (ne_of_gt ha_pos)
        · exact h0
      have hdecay2 : decay2Of d = Decay.Quadratic (a - min r a) r := by
        unfold decay2Of
        rw [hdq]
        rfl
      rw [hdecay2]
      have hstep : qsN (a - min r a) r + 1 ≤ qsN a r := qsN_succ_le ha_pos hr_pos
      cases hdd : d.decay with
      | Quadratic a2 r2x =>
        unfold decay1 at hdq
        rw [hdd] at hdq
        unfold State.decaySelect at hdq
        dsimp only at hdq
        injection hdq with h1 h2
        have hdcq : dcomp (Decay.Quadratic (a - min r a) r) d.feed_rate =
            qsN (a - min r a) r := rfl
        have hdcq2 : dcomp (Decay.Quadratic a2 r2x) d.feed_rate = qsN a2 r2x := rfl
        rw [hdcq, hdcq2, h1, h2]
        omega
      | AutomaticExponential =>
        unfold decay1 at hdq
        rw [hdd] at hdq
        unfold State.decaySelect at hdq
        dsimp only at hdq
        split at hdq
        · rename_i hbz
          injection hdq with h1 h2
          have hB0 : (⌈6 * (d.buffer - State.drainAmount d.buffer)⌉.toNat) = 0 := by
            rw [hbz]
            have h00 : ⌈(6 : K) * 0⌉ = 0 := by norm_num
            omega
          have hqa : qsN a r =
              ⌈d.feed_rate.interval' * 2 * (WHEEL_TICK_FREQ : K)⌉.toNat := by
            unfold qsN
            rw [if_pos hr_pos]
            have hratio : a / r = d.feed_rate.interval' * 2 * (WHEEL_TICK_FREQ : K) := by
              rw [← h1, ← h2]
              exact snapshot_ratio (by rw [h1]; exact ne_of_gt ha_pos)
                (ne_of_gt (denom_pos d.feed_rate))
            rw [hratio]
          have hdcq : dcomp (Decay.Quadratic (a - min r a) r) d.feed_rate =
              qsN (a - min r a) r := rfl
          have hdca : dcomp (Decay.AutomaticExponential : Decay K) d.feed_rate =
              ⌈d.feed_rate.interval' * 2 * (WHEEL_TICK_FREQ : K)⌉.toNat + 1 := rfl
          rw [hdcq, hdca]
          omega
        · simp at hdq

lemma tickNext_nop : State.tickNext (State.Nop : State K) = State.Nop := rfl

lemma iterate_nop (n : ℕ) : State.tickNext^[n] (State.Nop : State K) = State.Nop :=
  Function.iterate_fixed tickNext_nop n

/-- From any state satisfying the invariant, the idle state is reached within
`ticksToIdle` clock ticks. -/
lemma terminates_of_inv : ∀ (m : ℕ) (s : State K), SInv s → ticksToIdle s ≤ m →
    ∃ n, n ≤ ticksToIdle s ∧ State.tickNext^[n] s = State.Nop := by
  intro m
  induction m with
  | zero =>
    intro s h hle
    cases s with
    | Nop => exact ⟨0, Nat.le_refl 0, rfl⟩
    | Scrolling d =>
      rw [show ticksToIdle (State.Scrolling d) =
        1 + (⌈6 * d.buffer⌉.toNat) + dcomp d.decay d.feed_rate from rfl] at hle
      omega
  | succ m ih =>
    intro s h hle
    cases s with
    | Nop => exact ⟨0, Nat.zero_le _, rfl⟩
    | Scrolling d =>
      have hlt := measure_decreases h
      obtain ⟨n, hn, hNop⟩ := ih _ (sinv_tickNext h) (by omega)
      refine ⟨n + 1, by omega, ?_⟩
      rw [Function.iterate_succ_apply]
      exact hNop

lemma sinv_iterate {s : State K} (h : SInv s) (n : ℕ) :
    SInv (State.tickNext^[n] s) := by
  induction n with
  | zero => exact h
  | succ n ih =>
    rw [Function.iterate_succ_apply']
    exact sinv_tickNext ih

lemma errOf_bounds {s : State K} (h : SInv s) : 0 ≤ errOf s ∧ errOf s < 1 := by
  cases s with
  | Nop => exact ⟨le_refl 0, one_pos⟩
  | Scrolling d => exact ⟨h.2.2.1, h.2.2.2.1⟩

lemma exactSum_nop (n : ℕ) : exactSum n (State.Nop : State K) = 0 := by
  induction n with
  | zero => rfl
  | succ n ih =>
    show dirValOf (State.Nop : State K) * (State.tickFull (State.Nop : State K)).spend *
        (WHEEL_DELTA : K) + exactSum n (State.Nop : State K) = 0
    rw [ih]
    show (0 : K) * 0 * (WHEEL_DELTA : K) + 0 = 0
    ring

lemma emitSum_nop (n : ℕ) : emitSum n (State.Nop : State K) = 0 := by
  induction n with
  | zero => rfl
  | succ n ih =>
    show deltaOfOutput (State.tickFull (State.Nop : State K)).output +
        emitSum n (State.Nop : State K) = 0
    rw [ih]
    rfl

/-- One quantization step of the machine: exact delta minus emitted delta
equals the change of the carried rounding error. -/
lemma step_identity (d : ScrollData K) :
    dirValOf (State.Scrolling d) * spendOf d * (WHEEL_DELTA : K) - ((deltaOf d : ℤ) : K) =
      error2Of d - d.error := by
  have h := quantize_key d.direction d.error (spendOf d)
  unfold rawOf at h
  exact h

/-- Running identity of the rounding-error carry: over any number of ticks the
exact sum and the emitted sum differ by the drift of the error field. -/
lemma sum_identity {s : State K} (h : SInv s) (n : ℕ) :
    ∃ e, 0 ≤ e ∧ e < 1 ∧ exactSum n s - ((emitSum n s : ℤ) : K) = e - errOf s := by
  induction n generalizing s with
  | zero =>
    obtain ⟨hl, hu⟩ := errOf_bounds h
    exact ⟨errOf s, hl, hu, by show (0 : K) - ((0 : ℤ) : K) = _; push_cast; ring⟩
  | succ n ih =>
    cases s with
    | Nop =>
      refine ⟨0, le_refl 0, one_pos, ?_⟩
      rw [exactSum_nop, emitSum_nop]
      show (0 : K) - ((0 : ℤ) : K) = 0 - errOf (State.Nop : State K)
      push_cast
      rfl
    | Scrolling d =>
      have hstep := step_identity d
      have hex : exactSum (n + 1) (State.Scrolling d) =
          dirValOf (State.Scrolling d) * spendOf d * (WHEEL_DELTA : K) +
            exactSum n (State.tickFull (State.Scrolling d)).next := by
        show dirValOf (State.Scrolling d) * (State.tickFull (State.Scrolling d)).spend *
            (WHEEL_DELTA : K) + _ = _
        rw [tickFull_scrolling]
      have hem : emitSum (n + 1) (State.Scrolling d) =
          deltaOf d + emitSum n (State.tickFull (State.Scrolling d)).next := by
        show deltaOfOutput (State.tickFull (State.Scrolling d)).output + _ = _
        rw [tickFull_scrolling]
        show deltaOfOutput (some (d.direction.with_value (deltaOf d))) + _ = _
        have hval : deltaOfOutput (some (d.direction.with_value (deltaOf d))) = deltaOf d := by
          unfold deltaOfOutput
          cases hd : d.direction <;> rfl
        rw [hval]
      have hsinv : SInv (State.tickFull (State.Scrolling d)).next := sinv_tickNext h
      obtain ⟨e, hel, heu, hee⟩ := ih hsinv
      have hnext : (State.tickFull (State.Scrolling d)).next =
          (if reservoir2Of d = 0 ∨ (spendOf d = 0 ∧ error2Of d < 1) then State.Nop
           else State.Scrolling { d with
             buffer := d.buffer - State.drainAmount d.buffer
             decay := decay2Of d
             reservoir := reservoir2Of d
             error := error2Of d }) := by
        rw [tickFull_scrolling]
      have herr : errOf (State.Scrolling d) = d.error := rfl
      by_cases hc : reservoir2Of d = 0 ∨ (spendOf d = 0 ∧ error2Of d < 1)
      · have hn2 : (State.tickFull (State.Scrolling d)).next = State.Nop := by
          rw [hnext, if_pos hc]
        refine ⟨error2Of d, error2Of_nonneg d, error2Of_lt_one d, ?_⟩
        rw [hex, hem, hn2, exactSum_nop, emitSum_nop, herr]
        push_cast at hstep ⊢
        linarith
      · have hn2 : (State.tickFull (State.Scrolling d)).next =
            State.Scrolling { d with
              buffer := d.buffer - State.drainAmount d.buffer
              decay := decay2Of d
              reservoir := reservoir2Of d
              error := error2Of d } := by
          rw [hnext, if_neg hc]
        have herr2 : errOf (State.tickFull (State.Scrolling d)).next = error2Of d := by
          rw [hn2]
          rfl
        refine ⟨e, hel, heu, ?_⟩
        rw [hex, hem, herr]
        rw [herr2] at hee
        push_cast at hstep hee ⊢
        linarith

end Lemmas

/-- C1 (code bug): a session created from a Horizontal tick stores the
Horizontal axis in its direction field, yet the wheel event its tick emits is
Vertical, because `Wheel::with_value` in `units.rs` maps the `Horizontal`
variant to `Wheel::Vertical(value)`. -/
theorem horizontal_session_emits_vertical_event :
    (State.feed Real.sqrt State.Nop 0 (Wheel.Horizontal (⟨1⟩ : Tick ℤ))).2 =
      State.Scrolling
        ⟨Wheel.Horizontal 1,
          ((|(1 : ℤ)| : ℤ) : ℝ) * Real.sqrt (MIN_FEED_INTERVAL_SECS / MAX_FEED_INTERVAL_SECS),
          Decay.AutomaticExponential, 0, 0, FeedRate.new 0⟩ ∧
    (State.tickFull
        (State.feed Real.sqrt State.Nop 0 (Wheel.Horizontal (⟨1⟩ : Tick ℤ))).2).output =
      some (Wheel.Vertical 0) := by
  constructor
  · rfl
  · exact Lemmas.tick_fed_output rfl

/-- C2: from every reachable state, repeated clock ticks reach the idle state
within the explicit bound `ticksToIdle` and stay there: the session never
produces output forever. -/
theorem scrolling_terminates (s : State ℝ) (h : Reachable s) :
    ∃ n, n ≤ ticksToIdle s ∧ ∀ m, n ≤ m → State.tickNext^[m] s = State.Nop := by
  obtain ⟨n, hn, hNop⟩ :=
    Lemmas.terminates_of_inv (ticksToIdle s) s (Lemmas.reachable_sinv h) (Nat.le_refl _)
  refine ⟨n, hn, ?_⟩
  intro m hm
  have hsplit : m = (m - n) + n := by omega
  rw [hsplit, Function.iterate_add_apply, hNop]
  exact Lemmas.iterate_nop (m - n)

/-- Witness for C2 at the session created by a single feed. -/
theorem scrolling_terminates_witness :
    ∃ n, n ≤ ticksToIdle (State.feed Real.sqrt State.Nop 0 (Wheel.Vertical (⟨1⟩ : Tick ℤ))).2 ∧
      ∀ m, n ≤ m → State.tickNext^[m]
        (State.feed Real.sqrt State.Nop 0 (Wheel.Vertical (⟨1⟩ : Tick ℤ))).2 = State.Nop :=
  scrolling_terminates _
    (Reachable.feed_step State.Nop 0 (Wheel.Vertical ⟨1⟩) Reachable.nop (by decide))

/-- C3: after each tick of a session the rounding-error field lies in `[0,1)`,
and at every point of the tick sequence the cumulative emitted integer deltas
differ from the exact real-valued sum of `direction * spend`, scaled into
output units by `WHEEL_DELTA`, by less than one unit. -/
theorem bounded_rounding_drift (s : State ℝ) (h : Reachable s) (n : ℕ) :
    (0 ≤ errOf (State.tickNext^[n] s) ∧ errOf (State.tickNext^[n] s) < 1) ∧
    |exactSum n s - ((emitSum n s : ℤ) : ℝ)| < 1 := by
  have hs := Lemmas.reachable_sinv h
  constructor
  · exact Lemmas.errOf_bounds (Lemmas.sinv_iterate hs n)
  · obtain ⟨e, hel, heu, hee⟩ := Lemmas.sum_identity hs n
    obtain ⟨hl, hu⟩ := Lemmas.errOf_bounds hs
    rw [hee, abs_lt]
    constructor <;> linarith

/-- Witness for C3 one tick into the session created by a single feed. -/
theorem bounded_rounding_drift_witness :
    (0 ≤ errOf (State.tickNext^[1]
        (State.feed Real.sqrt State.Nop 0 (Wheel.Vertical (⟨1⟩ : Tick ℤ))).2) ∧
      errOf (State.tickNext^[1]
        (State.feed Real.sqrt State.Nop 0 (Wheel.Vertical (⟨1⟩ : Tick ℤ))).2) < 1) ∧
    |exactSum 1 (State.feed Real.sqrt State.Nop 0 (Wheel.Vertical (⟨1⟩ : Tick ℤ))).2 -
      ((emitSum 1 (State.feed Real.sqrt State.Nop 0 (Wheel.Vertical (⟨1⟩ : Tick ℤ))).2 : ℤ) : ℝ)| <
      1 :=
  bounded_rounding_drift _
    (Reachable.feed_step State.Nop 0 (Wheel.Vertical ⟨1⟩) Reachable.nop (by decide)) 1

/-- C4: when a tick finds the drained buffer at zero under automatic
exponential decay, the decay mode switches to the quadratic snapshot with
`amount = reservoir * decay_rate` and
`decreasing_rate = amount / (feed_interval * 2 * F)` (the stored amount has
one spend decrement already applied); the linear schedule spans exactly
`feed_interval * 2 * F` clock ticks, i.e. `2 * feed_interval` seconds, and
its total spend `amount^2 / (2 * decreasing_rate)` equals the reservoir held
at snapshot time. -/
theorem quadratic_snapshot_spec (d : ScrollData ℝ)
    (hauto : d.decay = Decay.AutomaticExponential)
    (hb : d.buffer - State.drainAmount d.buffer = 0)
    (hr2 : 0 < State.reservoirAfterCap d) :
    ∃ a₀ r₀ d',
      a₀ = State.reservoirAfterCap d * (WHEEL_TICK_INTERVAL_SECS / d.feed_rate.interval') ∧
      r₀ = a₀ / (d.feed_rate.interval' * 2 * (WHEEL_TICK_FREQ : ℝ)) ∧
      State.tickNext (State.Scrolling d) = State.Scrolling d' ∧
      d'.decay = Decay.Quadratic (a₀ - min r₀ a₀) r₀ ∧
      a₀ = r₀ * (d.feed_rate.interval' * 2 * (WHEEL_TICK_FREQ : ℝ)) ∧
      a₀ ^ 2 = 2 * r₀ * State.reservoirAfterCap d := by
  have hdrr_pos := Lemmas.decay_rate_pos d.feed_rate
  have hdrr_lt := Lemmas.decay_rate_lt_one d.feed_rate
  have hden := Lemmas.denom_pos d.feed_rate
  have hi := Lemmas.interval'_pos d.feed_rate
  have hsnap := Lemmas.decay1_snapshot hauto hb
  have hA_pos : 0 < State.reservoirAfterCap d *
      (WHEEL_TICK_INTERVAL_SECS / d.feed_rate.interval') := mul_pos hr2 hdrr_pos
  have hA_lt : State.reservoirAfterCap d *
      (WHEEL_TICK_INTERVAL_SECS / d.feed_rate.interval') < State.reservoirAfterCap d := by
    nlinarith
  have hspend : Lemmas.spendOf d = State.reservoirAfterCap d *
      (WHEEL_TICK_INTERVAL_SECS / d.feed_rate.interval') := by
    unfold Lemmas.spendOf
    rw [hsnap]
    exact min_eq_left (le_of_lt hA_lt)
  have hres2 : 0 < Lemmas.reservoir2Of d := by
    unfold Lemmas.reservoir2Of
    rw [hspend]
    linarith
  have hdecay2 : Lemmas.decay2Of d =
      Decay.Quadratic
        (State.reservoirAfterCap d * (WHEEL_TICK_INTERVAL_SECS / d.feed_rate.interval') -
          min (State.reservoirAfterCap d * (WHEEL_TICK_INTERVAL_SECS / d.feed_rate.interval')
              / (d.feed_rate.interval' * 2 * (WHEEL_TICK_FREQ : ℝ)))
            (State.reservoirAfterCap d * (WHEEL_TICK_INTERVAL_SECS / d.feed_rate.interval')))
        (State.reservoirAfterCap d * (WHEEL_TICK_INTERVAL_SECS / d.feed_rate.interval')
          / (d.feed_rate.interval' * 2 * (WHEEL_TICK_FREQ : ℝ))) := by
    unfold Lemmas.decay2Of
    rw [hsnap]
    rfl
  refine ⟨_, _, { d with
      buffer := d.buffer - State.drainAmount d.buffer
      decay := Lemmas.decay2Of d
      reservoir := Lemmas.reservoir2Of d
      error := Lemmas.error2Of d }, rfl, rfl, ?_, hdecay2, ?_, ?_⟩
  · unfold State.tickNext
    rw [Lemmas.tickFull_scrolling]
    dsimp only
    rw [if_neg ?hcond]
    case hcond =>
      intro hcon
      rcases hcon with h0 | ⟨h0, _⟩
      · exact absurd h0 (ne_of_gt hres2)
      · rw [hspend] at h0
        exact absurd h0 (ne_of_gt hA_pos)
  · rw [div_mul_cancel₀]
    exact ne_of_gt hden
  · have hF : (WHEEL_TICK_FREQ : ℝ) = 120 := by norm_num [WHEEL_TICK_FREQ]
    have hWT : WHEEL_TICK_INTERVAL_SECS = 1 / ((WHEEL_TICK_FREQ : ℝ)) := rfl
    rw [hWT, hF]
    have hine : d.feed_rate.interval' ≠ 0 := ne_of_gt hi
    field_simp
    ring

/-- Witness for C4 at a drained session with unit reservoir. -/
theorem quadratic_snapshot_spec_witness :
    ∃ a₀ r₀ d',
      a₀ = State.reservoirAfterCap
          (⟨Wheel.Vertical 1, 0, Decay.AutomaticExponential, 1, 0, FeedRate.new 0⟩ :
            ScrollData ℝ) *
          (WHEEL_TICK_INTERVAL_SECS /
            (FeedRate.new (0 : ℝ)).interval') ∧
      r₀ = a₀ / ((FeedRate.new (0 : ℝ)).interval' * 2 * (WHEEL_TICK_FREQ : ℝ)) ∧
      State.tickNext (State.Scrolling
          (⟨Wheel.Vertical 1, 0, Decay.AutomaticExponential, 1, 0, FeedRate.new 0⟩ :
            ScrollData ℝ)) = State.Scrolling d' ∧
      d'.decay = Decay.Quadratic (a₀ - min r₀ a₀) r₀ ∧
      a₀ = r₀ * ((FeedRate.new (0 : ℝ)).interval' * 2 * (WHEEL_TICK_FREQ : ℝ)) ∧
      a₀ ^ 2 = 2 * r₀ * State.reservoirAfterCap
          (⟨Wheel.Vertical 1, 0, Decay.AutomaticExponential, 1, 0, FeedRate.new 0⟩ :
            ScrollData ℝ) :=
  quadratic_snapshot_spec _ rfl
    (by show (0 : ℝ) - State.drainAmount 0 = 0; rw [Lemmas.drainAmount_zero]; ring)
    (by rw [Lemmas.reservoirAfterCap_buffer_zero rfl]; norm_num)

/-- C5: feeding in the idle state, or into a session whose axis or direction
differs from the incoming tick's, discards the prior session's buffer,
reservoir and rounding error and returns `true` with a fresh session: buffer
seeded with `|magnitude| * sqrt(MIN_FEED_INTERVAL / MAX_FEED_INTERVAL)`, zero
reservoir, zero rounding error, automatic-exponential decay, and a freshly
initialized `FeedRate`. -/
theorem feed_restart_spec (s : State ℝ) (now : ℝ) (t : Wheel (Tick ℤ))
    (h : ∀ d, s = State.Scrolling d → t.into_direction ≠ d.direction) :
    State.feed Real.sqrt s now t =
      (true, State.Scrolling
        ⟨t.into_direction,
          ((|t.value.raw| : ℤ) : ℝ) *
            Real.sqrt (MIN_FEED_INTERVAL_SECS / MAX_FEED_INTERVAL_SECS),
          Decay.AutomaticExponential, 0, 0, FeedRate.new now⟩) := by
  cases s with
  | Nop => rfl
  | Scrolling d =>
    unfold State.feed
    dsimp only
    rw [if_neg (h d rfl)]
    rfl

/-- Witness for C5 at the idle state. -/
theorem feed_restart_spec_witness :
    State.feed Real.sqrt State.Nop 0 (Wheel.Vertical (⟨2⟩ : Tick ℤ)) =
      (true, State.Scrolling
        ⟨(Wheel.Vertical (⟨2⟩ : Tick ℤ)).into_direction,
          ((|((2 : ℤ))| : ℤ) : ℝ) *
            Real.sqrt (MIN_FEED_INTERVAL_SECS / MAX_FEED_INTERVAL_SECS),
          Decay.AutomaticExponential, 0, 0, FeedRate.new 0⟩) :=
  feed_restart_spec State.Nop 0 (Wheel.Vertical ⟨2⟩) (fun d hd => nomatch hd)

/-- C6: while in a scrolling session, every integer delta emitted by a tick
has the same sign as the session's direction, or is zero; the sign never
flips within one session. -/
theorem delta_sign_matches_direction (s : State ℝ) (h : Reachable s)
    (d : ScrollData ℝ) (hd : s = State.Scrolling d) (w : Wheel Delta)
    (hw : (State.tickFull s).output = some w) :
    (d.direction.value = 1 → 0 ≤ w.value) ∧ (d.direction.value = -1 → w.value ≤ 0) := by
  subst hd
  have hs := Lemmas.reachable_sinv h
  obtain ⟨hb0, hr0, he0, he1, hdec, hfr, hq⟩ := hs
  have hr2 := Lemmas.reservoirAfterCap_nonneg hb0 hr0 hfr
  have hdec1 := Lemmas.decayInv_decay1 hdec hr2
  have hsp := Lemmas.spendOf_nonneg hdec1 hr2
  rw [Lemmas.tickFull_scrolling] at hw
  dsimp only at hw
  simp only [Option.some.injEq] at hw
  have hwv : w.value = Lemmas.deltaOf d := by
    rw [← hw]
    cases hdir : d.direction <;> rfl
  constructor
  · intro h1
    rw [hwv]
    exact Lemmas.quantize_fst_nonneg h1 hsp he0
  · intro h1
    rw [hwv]
    exact Lemmas.quantize_fst_nonpos h1 hsp he0 he1

/-- Witness for C6 at the first tick of the session created by one feed. -/
theorem delta_sign_matches_direction_witness :
    ((Lemmas.fedData (Wheel.Vertical (⟨1⟩ : Tick ℤ))).direction.value = 1 →
      (0 : ℤ) ≤ (Wheel.Vertical (0 : ℤ)).value) ∧
    ((Lemmas.fedData (Wheel.Vertical (⟨1⟩ : Tick ℤ))).direction.value = -1 →
      (Wheel.Vertical (0 : ℤ)).value ≤ 0) :=
  delta_sign_matches_direction _
    (Reachable.feed_step State.Nop 0 (Wheel.Vertical ⟨1⟩) Reachable.nop (by decide))
    _ (Lemmas.feed_nop _) (Wheel.Vertical 0) (Lemmas.tick_fed_output rfl)

/-- C7: each tick drains `buffer * drain_rate_min` when the buffer exceeds one
unit and `min drain_rate_min buffer` otherwise, where
`drain_rate_min = 1 / BUFFER_MAX_DRAIN_DURATION / F`; the drain is subtracted
from the buffer and added to the reservoir, and whenever the drain is
positive the reservoir is then capped at `feed_rate.moving_avg()` before the
spend is taken. -/
theorem drain_step_spec (d d' : ScrollData ℝ)
    (hnext : State.tickNext (State.Scrolling d) = State.Scrolling d') :
    ∃ drain,
      drain = (if d.buffer > 1 then
          d.buffer * (1 / BUFFER_MAX_DRAIN_DURATION_SECS / (WHEEL_TICK_FREQ : ℝ))
        else min (1 / BUFFER_MAX_DRAIN_DURATION_SECS / (WHEEL_TICK_FREQ : ℝ)) d.buffer) ∧
      d'.buffer = d.buffer - drain ∧
      d'.reservoir = (if drain > 0 then min (d.reservoir + drain) d.feed_rate.moving_avg
        else d.reservoir + drain) - (State.tickFull (State.Scrolling d)).spend := by
  refine ⟨State.drainAmount d.buffer, rfl, ?_, ?_⟩
  all_goals
    unfold State.tickNext at hnext
    rw [Lemmas.tickFull_scrolling] at hnext
    dsimp only at hnext
    split at hnext
  · exact absurd hnext (fun hcc => nomatch hcc)
  · injection hnext with hrec
    rw [← hrec]
  · exact absurd hnext (fun hcc => nomatch hcc)
  · injection hnext with hrec
    rw [← hrec]
    rfl

/-- Witness for C7 at the sample session. -/
theorem drain_step_spec_witness :
    ∃ drain,
      drain = (if Lemmas.sampleData.buffer > 1 then
          Lemmas.sampleData.buffer *
            (1 / BUFFER_MAX_DRAIN_DURATION_SECS / (WHEEL_TICK_FREQ : ℝ))
        else min (1 / BUFFER_MAX_DRAIN_DURATION_SECS / (WHEEL_TICK_FREQ : ℝ))
          Lemmas.sampleData.buffer) ∧
      (⟨Wheel.Vertical 1, 5 / 6, Decay.AutomaticExponential, 35 / 216, 5 / 9,
          FeedRate.new 0⟩ : ScrollData ℝ).buffer = Lemmas.sampleData.buffer - drain ∧
      (⟨Wheel.Vertical 1, 5 / 6, Decay.AutomaticExponential, 35 / 216, 5 / 9,
          FeedRate.new 0⟩ : ScrollData ℝ).reservoir =
        (if drain > 0 then min (Lemmas.sampleData.reservoir + drain)
            Lemmas.sampleData.feed_rate.moving_avg
          else Lemmas.sampleData.reservoir + drain) -
          (State.tickFull (State.Scrolling Lemmas.sampleData)).spend :=
  drain_step_spec Lemmas.sampleData _
    (by show (State.tickFull (State.Scrolling Lemmas.sampleData)).next = _
        rw [Lemmas.sample_tick])

/-- C8: every reachable scrolling state has a nonnegative buffer and a
nonnegative reservoir; feeding and ticking preserve nonnegativity. -/
theorem reachable_nonneg (s : State ℝ) (h : Reachable s) (d : ScrollData ℝ)
    (hd : s = State.Scrolling d) : 0 ≤ d.buffer ∧ 0 ≤ d.reservoir := by
  have hs := Lemmas.reachable_sinv h
  rw [hd] at hs
  exact ⟨hs.1, hs.2.1⟩

/-- Witness for C8 at the session created by one feed. -/
theorem reachable_nonneg_witness :
    0 ≤ (Lemmas.fedData (Wheel.Vertical (⟨1⟩ : Tick ℤ))).buffer ∧
    0 ≤ (Lemmas.fedData (Wheel.Vertical (⟨1⟩ : Tick ℤ))).reservoir :=
  reachable_nonneg _
    (Reachable.feed_step State.Nop 0 (Wheel.Vertical ⟨1⟩) Reachable.nop (by decide))
    _ (Lemmas.feed_nop _)

/-- C9: `FeedRate::interval()` returns the stored moving-average interval
clamped into `[MIN_FEED_INTERVAL, MAX_FEED_INTERVAL]`, returning the maximum
when no sample has been fed; `FeedRate::moving_avg()` returns the stored
magnitude average divided by `interval()`, and `1 / interval()` when no
sample has been fed. -/
theorem feed_rate_interval_moving_avg_spec (fr : FeedRate ℝ) :
    (fr.interval = none → fr.interval' = MAX_FEED_INTERVAL_SECS) ∧
    (∀ x, fr.interval = some x →
      fr.interval' = max (min x MAX_FEED_INTERVAL_SECS) MIN_FEED_INTERVAL_SECS) ∧
    MIN_FEED_INTERVAL_SECS ≤ fr.interval' ∧ fr.interval' ≤ MAX_FEED_INTERVAL_SECS ∧
    (fr.value = none → fr.moving_avg = 1 / fr.interval') ∧
    (∀ v, fr.value = some v → fr.moving_avg = v / fr.interval') := by
  refine ⟨?_, ?_, Lemmas.interval'_lower fr, Lemmas.interval'_upper fr, ?_, ?_⟩
  · intro hnone
    unfold FeedRate.interval'
    rw [hnone, Option.getD_none, min_self]
    exact max_eq_left (le_of_lt Lemmas.min_lt_max_interval)
  · intro x hx
    unfold FeedRate.interval'
    rw [hx]
    rfl
  · intro hnone
    unfold FeedRate.moving_avg
    rw [hnone]
    rfl
  · intro v hv
    unfold FeedRate.moving_avg
    rw [hv]
    rfl

/-- C10: a tick of a reachable scrolling session with positive buffer never
transitions the machine to idle: undrained pressure keeps the session alive. -/
theorem tick_keeps_scrolling_when_buffer_positive (s : State ℝ) (h : Reachable s)
    (d : ScrollData ℝ) (hd : s = State.Scrolling d) (hb : 0 < d.buffer) :
    State.tickNext s ≠ State.Nop := by
  subst hd
  have hs := Lemmas.reachable_sinv h
  obtain ⟨hsp, hres⟩ := Lemmas.tick_pos_of_buffer_pos hs hb
  unfold State.tickNext
  rw [Lemmas.tickFull_scrolling]
  dsimp only
  rw [if_neg ?hcond]
  case hcond =>
    intro hcon
    rcases hcon with h0 | ⟨h0, _⟩
    · exact absurd h0 (ne_of_gt hres)
    · exact absurd h0 (ne_of_gt hsp)
  intro hcc
  exact nomatch hcc

/-- Witness for C10 at the session created by one feed. -/
theorem tick_keeps_scrolling_witness :
    State.tickNext (State.feed Real.sqrt State.Nop 0 (Wheel.Vertical (⟨1⟩ : Tick ℤ))).2 ≠
      State.Nop :=
  tick_keeps_scrolling_when_buffer_positive _
    (Reachable.feed_step State.Nop 0 (Wheel.Vertical ⟨1⟩) Reachable.nop (by decide))
    (Lemmas.fedData (Wheel.Vertical ⟨1⟩)) (Lemmas.feed_nop _)
    (by rw [Lemmas.fed_buffer
          (show (Wheel.Vertical (⟨1⟩ : Tick ℤ)).value.raw = 1 from rfl)]
        exact Real.sqrt_pos.mpr (by norm_num))

end Tpmiddle
